import Mathlib

/-!
Verification of the ccache source-input scanner and hasher core.

The buffer handed to the scanner is ccache's sentinel-padded `Buffer`: one
byte holding a newline sits immediately before the live region and at least
one (in vectorized builds, 31) NUL bytes sit immediately after it.  We model
the live region as a `List Nat` of byte values and expose the padded view
through `byteAt`, which serves the sentinel bytes for out-of-range indices
exactly as the allocation contract of `Buffer` guarantees.
-/

/-- Reading the padded buffer at a (possibly negative) index: index `-1` is
the pre-sentinel newline byte, indices at or past the live size read the
trailing NUL sentinel bytes, and live indices read the live bytes. -/
def byteAt (buf : List Nat) (i : Int) : Nat :=
  if i < 0 then 10 else buf.getD i.toNat 0

/-- Model of `c == '_' || isalnum(c)` in the verifier's token-boundary test
(ASCII, C locale): underscore, letters and digits. -/
def idChar (c : Nat) : Bool :=
  (c == 95) || decide (65 ≤ c ∧ c ≤ 90) || decide (97 ≤ c ∧ c ≤ 122)
    || decide (48 ≤ c ∧ c ≤ 57)

/-- Byte values of `"_DATE__"`, the `memcmp` needle of the verifier. -/
def nDATE : List Nat := [95, 68, 65, 84, 69, 95, 95]

/-- Byte values of `"_TIME__"`. -/
def nTIME : List Nat := [95, 84, 73, 77, 69, 95, 95]

/-- Byte values of `"_TIMESTAMP__"`. -/
def nTIMESTAMP : List Nat := [95, 84, 73, 77, 69, 83, 84, 65, 77, 80, 95, 95]

/-- Result bit `HASH_SOURCE_CODE_OK`.  Modelled from the spec: the
`HASH_SOURCE_CODE_*` constants are declared in `hashutil.hpp`, which is not
part of the sources; the spec fixes `OK`, a distinguished `ERROR`, and three
independent findings bits. -/
def HASH_SOURCE_CODE_OK : Nat := 0

/-- Result value `HASH_SOURCE_CODE_ERROR` (see `HASH_SOURCE_CODE_OK`). -/
def HASH_SOURCE_CODE_ERROR : Nat := 1

/-- Findings bit `HASH_SOURCE_CODE_FOUND_DATE` (see `HASH_SOURCE_CODE_OK`). -/
def HASH_SOURCE_CODE_FOUND_DATE : Nat := 2

/-- Findings bit `HASH_SOURCE_CODE_FOUND_TIME` (see `HASH_SOURCE_CODE_OK`). -/
def HASH_SOURCE_CODE_FOUND_TIME : Nat := 4

/-- Findings bit `HASH_SOURCE_CODE_FOUND_TIMESTAMP` (see
`HASH_SOURCE_CODE_OK`). -/
def HASH_SOURCE_CODE_FOUND_TIMESTAMP : Nat := 8

/-- `memcmp(str, needle, needle.length) == 0` on the padded buffer: the
bytes starting at `p` equal `needle`. -/
def matchList (buf : List Nat) (p : Int) : List Nat → Bool
  | [] => true
  | c :: rest => (byteAt buf p == c) && matchList buf (p + 1) rest

/-- Model of `check_for_temporal_macros_helper(str, len)` with `str` the
index `p` into the padded buffer.  The C function selects `found` and
`macro_len` by the three `memcmp`s and then performs one common
token-boundary test on `str[-2]` and `str[macro_len]`; here the common test
is inlined into each branch with its `macro_len`. -/
def check_for_temporal_macros_helper (buf : List Nat) (p len : Int) : Nat :=
  if len < 7 then 0
  else if matchList buf p nDATE then
    if idChar (byteAt buf (p - 2)) = false ∧ idChar (byteAt buf (p + 7)) = false then
      HASH_SOURCE_CODE_FOUND_DATE
    else 0
  else if matchList buf p nTIME then
    if idChar (byteAt buf (p - 2)) = false ∧ idChar (byteAt buf (p + 7)) = false then
      HASH_SOURCE_CODE_FOUND_TIME
    else 0
  else if 12 ≤ len ∧ matchList buf p nTIMESTAMP then
    if idChar (byteAt buf (p - 2)) = false ∧ idChar (byteAt buf (p + 12)) = false then
      HASH_SOURCE_CODE_FOUND_TIMESTAMP
    else 0
  else 0

/-- Modelled from the spec: the 256-entry Boyer-Moore-Horspool skip table of
`macroskip.hpp` is not part of the sources.  Per the spec it is the pure
function of the needle set giving, for each byte, the classical BMH advance
for the 8-byte search windows `"__DATE__"`, `"__TIME__"` and `"__TIMEST"`
(the first eight bytes of `"__TIMESTAMP__"`): the minimum over the windows
of `7 - o` where `o` is the last offset `< 7` at which the byte occurs, and
`8` for bytes occurring in no window. -/
def macro_skip (c : Nat) : Nat :=
  if c = 95 ∨ c = 83 then 1
  else if c = 69 then 2
  else if c = 84 ∨ c = 77 then 3
  else if c = 65 ∨ c = 73 then 4
  else if c = 68 then 5
  else 8

/-- One pass of the scalar Boyer-Moore-Horspool loop of
`check_for_temporal_macros_bmh`, written with explicit fuel (the cursor
advances by at least one per iteration, so `buf.length` fuel suffices; see
`bmh_loop_eq`).  At cursor `i` the loop tests `end[-2] == 'E'` and
`end[-7] == '_'` and on a hit calls the verifier at `end - 6` with length
`buffer.size() - i + 6`. -/
def bmh_loop (buf : List Nat) : Nat → Nat → Nat
  | 0, _ => 0
  | fuel + 1, i =>
    if i < buf.length then
      (if byteAt buf ((i : Int) - 2) = 69 ∧ byteAt buf ((i : Int) - 7) = 95 then
        check_for_temporal_macros_helper buf ((i : Int) - 6)
          ((buf.length : Int) - (i : Int) + 6)
      else 0)
        ||| bmh_loop buf fuel (i + macro_skip (byteAt buf (i : Int)))
    else 0

/-- Model of `check_for_temporal_macros_bmh`: the BMH cursor starts at 7. -/
def check_for_temporal_macros_bmh (buf : List Nat) : Nat :=
  bmh_loop buf buf.length 7

/-- The mask processing of one 32-byte block of the AVX2 scan: bit `b` of
the movemask is set exactly when byte `i + b` is `'_'` and byte `i + b + 5`
is `'E'`; the set bits are visited from least significant upward and for
each the verifier runs at `current + pos` with length `len - pos`,
`pos = b + 1`. -/
def avx2_inner (buf : List Nat) (i : Nat) : Nat :=
  (List.range 32).foldl
    (fun acc b =>
      if byteAt buf ((i + b : Nat) : Int) = 95 ∧ byteAt buf ((i + b + 5 : Nat) : Int) = 69 then
        acc ||| check_for_temporal_macros_helper buf ((i + b + 1 : Nat) : Int)
          ((buf.length : Int) - (i : Int) - ((b : Int) + 1))
      else acc)
    0

/-- The outer loop of `check_for_temporal_macros_avx2`, with explicit fuel:
blocks of 32 bytes while `i + 8 <= buffer.size()`. -/
def avx2_loop (buf : List Nat) : Nat → Nat → Nat
  | 0, _ => 0
  | fuel + 1, i =>
    if i + 8 ≤ buf.length then
      avx2_inner buf i ||| avx2_loop buf fuel (i + 32)
    else 0

/-- Model of `check_for_temporal_macros_avx2`.  The 32-byte vector loads at
`current` and `current + 5` stay inside the allocation thanks to the 31
trailing sentinel NUL bytes, which `byteAt` serves as zeros. -/
def check_for_temporal_macros_avx2 (buf : List Nat) : Nat :=
  avx2_loop buf (buf.length + 1) 0

/-- Model of `check_for_temporal_macros`.  At runtime the C function
dispatches to the AVX2 scan when the CPU supports it and to the BMH scan
otherwise; the two return identical masks (proved below), so the model uses
the scalar path. -/
def check_for_temporal_macros (buf : List Nat) : Nat :=
  check_for_temporal_macros_bmh buf

example : check_for_temporal_macros [95, 95, 68, 65, 84, 69, 95, 95] = 2 := by decide

example : check_for_temporal_macros [95, 95, 84, 73, 77, 69, 95, 95] = 4 := by decide

example :
    check_for_temporal_macros [95, 95, 84, 73, 77, 69, 83, 84, 65, 77, 80, 95, 95] = 8 := by
  decide

example :
    check_for_temporal_macros [95, 95, 95, 68, 65, 84, 69, 95, 95, 95] = 0 := by decide

example :
    check_for_temporal_macros_avx2 [95, 95, 68, 65, 84, 69, 95, 95] = 2 := by decide

example :
    check_for_temporal_macros_avx2
      [95, 95, 68, 65, 84, 69, 95, 95, 32, 95, 95, 84, 73, 77, 69, 95, 95] = 6 := by
  decide

example :
    check_for_temporal_macros
      [95, 95, 68, 65, 84, 69, 95, 95, 32, 95, 95, 84, 73, 77, 69, 95, 95] = 6 := by
  decide

/-!
Reference scan: the bitwise-or, over every candidate position `q` of the
live region, of the verifier's result at `q + 1` guarded by the first/last
byte filter `buf[q] == '_' && buf[q + 5] == 'E'`.  Both the BMH path and the
AVX2 path are proved equal to it.
-/

/-- Contribution of candidate position `q` to the findings mask (the filter
is written with the `'E'` test first, as in the scalar loop). -/
def scanContrib (buf : List Nat) (q : Nat) : Nat :=
  if byteAt buf ((q + 5 : Nat) : Int) = 69 ∧ byteAt buf ((q : Nat) : Int) = 95 then
    check_for_temporal_macros_helper buf ((q + 1 : Nat) : Int)
      ((buf.length : Int) - (q : Int) - 1)
  else 0

/-- Bitwise-or of the contributions of the `n` candidate positions starting
at `q`. -/
def naiveFrom (buf : List Nat) : Nat → Nat → Nat
  | _, 0 => 0
  | q, n + 1 => scanContrib buf q ||| naiveFrom buf (q + 1) n

/-- The reference findings mask of a buffer. -/
def naiveScan (buf : List Nat) : Nat :=
  naiveFrom buf 0 buf.length

theorem byteAt_ofNat (buf : List Nat) (q : Nat) : byteAt buf (q : Int) = buf.getD q 0 := by
  simp [byteAt]

theorem byteAt_lt_length {buf : List Nat} {q : Nat} (h : byteAt buf (q : Int) ≠ 0) :
    q < buf.length := by
  by_contra hq
  rw [byteAt_ofNat, List.getD_eq_default] at h
  · exact h rfl
  · omega

theorem helper_len_lt (buf : List Nat) (p : Int) {len : Int} (h : len < 7) :
    check_for_temporal_macros_helper buf p len = 0 := by
  rw [check_for_temporal_macros_helper, if_pos h]

theorem scanContrib_eq_zero_of_near_end {buf : List Nat} {q : Nat}
    (h : buf.length < q + 8) : scanContrib buf q = 0 := by
  rw [scanContrib]
  split
  · apply helper_len_lt
    omega
  · rfl

theorem naiveFrom_eq_zero_of_near_end {buf : List Nat} {n : Nat} (q : Nat)
    (h : buf.length < q + 8) : naiveFrom buf q n = 0 := by
  induction n generalizing q with
  | zero => rfl
  | succ n ih =>
      rw [naiveFrom, scanContrib_eq_zero_of_near_end h, ih (q + 1) (by omega)]
      rfl

theorem naiveFrom_split (buf : List Nat) (q n m : Nat) :
    naiveFrom buf q (n + m) = naiveFrom buf q n ||| naiveFrom buf (q + n) m := by
  induction n generalizing q with
  | zero => simp [naiveFrom]
  | succ n ih =>
      have : n + 1 + m = (n + m) + 1 := by omega
      rw [this, naiveFrom, naiveFrom, ih (q + 1), Nat.or_assoc]
      have : q + 1 + n = q + (n + 1) := by omega
      rw [this]

theorem naiveFrom_eq_zero_of_contrib {buf : List Nat} {q n : Nat}
    (h : ∀ d, q ≤ d → d < q + n → scanContrib buf d = 0) : naiveFrom buf q n = 0 := by
  induction n generalizing q with
  | zero => rfl
  | succ n ih =>
      rw [naiveFrom, h q (le_refl q) (by omega), ih (fun d h1 h2 => h d (by omega) (by omega))]
      rfl

theorem naiveFrom_succ_right (buf : List Nat) (q n : Nat) :
    naiveFrom buf q (n + 1) = naiveFrom buf q n ||| scanContrib buf (q + n) := by
  rw [naiveFrom_split buf q n 1, naiveFrom, naiveFrom, Nat.or_zero]

theorem avx2_body_eq (buf : List Nat) (i b acc : Nat) :
    (if byteAt buf ((i + b : Nat) : Int) = 95 ∧ byteAt buf ((i + b + 5 : Nat) : Int) = 69 then
      acc ||| check_for_temporal_macros_helper buf ((i + b + 1 : Nat) : Int)
        ((buf.length : Int) - (i : Int) - ((b : Int) + 1))
    else acc) = acc ||| scanContrib buf (i + b) := by
  have hlen : (buf.length : Int) - (i : Int) - ((b : Int) + 1)
      = (buf.length : Int) - ((i + b : Nat) : Int) - 1 := by push_cast; ring
  rw [scanContrib]
  by_cases h : byteAt buf ((i + b : Nat) : Int) = 95 ∧ byteAt buf ((i + b + 5 : Nat) : Int) = 69
  · rw [if_pos h, if_pos ⟨h.2, h.1⟩, hlen]
  · rw [if_neg h, if_neg (fun hc => h ⟨hc.2, hc.1⟩), Nat.or_zero]

theorem avx2_inner_eq (buf : List Nat) (i : Nat) :
    avx2_inner buf i = naiveFrom buf i 32 := by
  rw [avx2_inner]
  have key : ∀ n acc,
      (List.range n).foldl
        (fun acc b =>
          if byteAt buf ((i + b : Nat) : Int) = 95
              ∧ byteAt buf ((i + b + 5 : Nat) : Int) = 69 then
            acc ||| check_for_temporal_macros_helper buf ((i + b + 1 : Nat) : Int)
              ((buf.length : Int) - (i : Int) - ((b : Int) + 1))
          else acc)
        acc = acc ||| naiveFrom buf i n := by
    intro n
    induction n with
    | zero => intro acc; simp [naiveFrom]
    | succ n ih =>
        intro acc
        rw [List.range_succ, List.foldl_append, List.foldl_cons, List.foldl_nil, ih,
          avx2_body_eq, naiveFrom_succ_right, Nat.or_assoc]
  rw [key 32 0, Nat.zero_or]

theorem avx2_loop_eq (buf : List Nat) :
    ∀ fuel i, buf.length ≤ i + fuel →
      avx2_loop buf fuel i = naiveFrom buf i (buf.length - i) := by
  intro fuel
  induction fuel with
  | zero =>
      intro i h
      have : buf.length - i = 0 := by omega
      rw [this, avx2_loop, naiveFrom]
  | succ fuel ih =>
      intro i h
      rw [avx2_loop]
      by_cases h8 : i + 8 ≤ buf.length
      · rw [if_pos h8, avx2_inner_eq, ih (i + 32) (by omega)]
        by_cases h32 : i + 32 ≤ buf.length
        · have e1 : buf.length - i = 32 + (buf.length - i - 32) := by omega
          have e2 : buf.length - (i + 32) = buf.length - i - 32 := by omega
          rw [e1, naiveFrom_split buf i 32 (buf.length - i - 32), e2]
        · have e1 : buf.length - (i + 32) = 0 := by omega
          have e2 : (32 : Nat) = (buf.length - i) + (32 - (buf.length - i)) := by omega
          rw [e1, naiveFrom, Nat.or_zero, e2,
            naiveFrom_split buf i (buf.length - i) (32 - (buf.length - i)),
            naiveFrom_eq_zero_of_near_end (i + (buf.length - i)) (by omega), Nat.or_zero]
      · rw [if_neg h8, naiveFrom_eq_zero_of_near_end i (by omega)]

theorem check_for_temporal_macros_avx2_eq_naive (buf : List Nat) :
    check_for_temporal_macros_avx2 buf = naiveScan buf := by
  rw [check_for_temporal_macros_avx2, avx2_loop_eq buf (buf.length + 1) 0 (by omega),
    naiveScan, Nat.sub_zero]

/-!
Correctness of the Boyer-Moore-Horspool skip: any candidate that the cursor
would jump over contributes nothing, because an actual match fixes the first
eight bytes of the window to one of `"__DATE__"`, `"__TIME__"` or
`"__TIMEST"`, and the skip distance of every byte of those windows respects
the classical BMH bound.
-/

/-- First eight bytes of a `__DATE__` occurrence. -/
def wDATE : List Nat := [95, 95, 68, 65, 84, 69, 95, 95]

/-- First eight bytes of a `__TIME__` occurrence. -/
def wTIME : List Nat := [95, 95, 84, 73, 77, 69, 95, 95]

/-- First eight bytes of a `__TIMESTAMP__` occurrence. -/
def wTIMEST : List Nat := [95, 95, 84, 73, 77, 69, 83, 84]

theorem matchList_forall {buf : List Nat} {needle : List Nat} :
    ∀ {p : Int}, matchList buf p needle = true →
      ∀ k, k < needle.length → byteAt buf (p + (k : Int)) = needle.getD k 0 := by
  induction needle with
  | nil => intro p h k hk; simp at hk
  | cons c rest ih =>
      intro p h k hk
      rw [matchList, Bool.and_eq_true, beq_iff_eq] at h
      match k with
      | 0 => simpa using h.1
      | k + 1 =>
          have e : p + ((k + 1 : Nat) : Int) = (p + 1) + (k : Int) := by push_cast; ring
          rw [e]
          simpa using ih h.2 k (by simpa using hk)

theorem helper_inv {buf : List Nat} {p len : Int}
    (h : check_for_temporal_macros_helper buf p len ≠ 0) :
    idChar (byteAt buf (p - 2)) = false ∧
      ((matchList buf p nDATE = true ∧ idChar (byteAt buf (p + 7)) = false)
        ∨ (matchList buf p nTIME = true ∧ idChar (byteAt buf (p + 7)) = false)
        ∨ (12 ≤ len ∧ matchList buf p nTIMESTAMP = true
            ∧ idChar (byteAt buf (p + 12)) = false)) := by
  rw [check_for_temporal_macros_helper] at h
  split_ifs at h with h1 h2 h3 h4 h5 h6 h7
  · exact absurd rfl h
  · exact ⟨h3.1, Or.inl ⟨h2, h3.2⟩⟩
  · exact absurd rfl h
  · exact ⟨h5.1, Or.inr (Or.inl ⟨h4, h5.2⟩)⟩
  · exact absurd rfl h
  · exact ⟨h7.1, Or.inr (Or.inr ⟨h6.1, h6.2, h7.2⟩)⟩
  · exact absurd rfl h
  · exact absurd rfl h

theorem window_shift {buf : List Nat} {q : Nat} {needle w : List Nat}
    (hm : matchList buf ((q + 1 : Nat) : Int) needle = true)
    (h0 : byteAt buf ((q : Nat) : Int) = 95)
    (hw0 : w.getD 0 0 = 95)
    (hlen : 7 ≤ needle.length)
    (hwk : ∀ k, k < 8 → 1 ≤ k → w.getD k 0 = needle.getD (k - 1) 0) :
    ∀ k, k < 8 → byteAt buf ((q + k : Nat) : Int) = w.getD k 0 := by
  intro k hk
  rcases Nat.eq_zero_or_pos k with hk0 | hk1
  · subst hk0
    rw [hw0]
    simpa using h0
  · have e : ((q + k : Nat) : Int) = ((q + 1 : Nat) : Int) + ((k - 1 : Nat) : Int) := by
      push_cast; omega
    rw [e, matchList_forall hm (k - 1) (by omega), hwk k hk hk1]

theorem window_of_contrib {buf : List Nat} {q : Nat} (h : scanContrib buf q ≠ 0) :
    ∃ w, (w = wDATE ∨ w = wTIME ∨ w = wTIMEST) ∧
      ∀ k, k < 8 → byteAt buf ((q + k : Nat) : Int) = w.getD k 0 := by
  rw [scanContrib] at h
  split_ifs at h with hc
  · obtain ⟨_, hcase⟩ := helper_inv h
    rcases hcase with ⟨hm, _⟩ | ⟨hm, _⟩ | ⟨_, hm, _⟩
    · exact ⟨wDATE, Or.inl rfl,
        window_shift hm hc.2 (by decide) (by decide) (by decide)⟩
    · exact ⟨wTIME, Or.inr (Or.inl rfl),
        window_shift hm hc.2 (by decide) (by decide) (by decide)⟩
    · exact ⟨wTIMEST, Or.inr (Or.inr rfl),
        window_shift hm hc.2 (by decide) (by decide) (by decide)⟩
  · exact absurd rfl h

theorem table_safe :
    ∀ w, (w = wDATE ∨ w = wTIME ∨ w = wTIMEST) →
      ∀ o, o < 7 → macro_skip (w.getD o 0) ≤ 7 - o := by
  intro w hw
  rcases hw with h | h | h <;> subst h <;> decide

theorem macro_skip_pos (c : Nat) : 1 ≤ macro_skip c := by
  rw [macro_skip]
  split_ifs <;> omega

theorem macro_skip_le (c : Nat) : macro_skip c ≤ 8 := by
  rw [macro_skip]
  split_ifs <;> omega

theorem skip_safety (buf : List Nat) (q d : Nat) (h1 : 1 ≤ d)
    (h2 : d < macro_skip (byteAt buf ((q + 7 : Nat) : Int))) :
    scanContrib buf (q + d) = 0 := by
  by_contra hC
  obtain ⟨w, hw, hwin⟩ := window_of_contrib hC
  have hd7 : d ≤ 7 := by
    have := macro_skip_le (byteAt buf ((q + 7 : Nat) : Int))
    omega
  have hb : byteAt buf ((q + 7 : Nat) : Int) = w.getD (7 - d) 0 := by
    have e2 : (q + 7 : Nat) = (q + d) + (7 - d) := by omega
    rw [e2]
    exact hwin (7 - d) (by omega)
  have hts := table_safe w hw (7 - d) (by omega)
  rw [hb] at h2
  omega

theorem bmh_body_eq (buf : List Nat) {i : Nat} (h7 : 7 ≤ i) :
    (if byteAt buf ((i : Int) - 2) = 69 ∧ byteAt buf ((i : Int) - 7) = 95 then
      check_for_temporal_macros_helper buf ((i : Int) - 6)
        ((buf.length : Int) - (i : Int) + 6)
    else 0) = scanContrib buf (i - 7) := by
  have e5 : ((i - 7 + 5 : Nat) : Int) = (i : Int) - 2 := by omega
  have e0 : ((i - 7 : Nat) : Int) = (i : Int) - 7 := by omega
  have e1 : ((i - 7 + 1 : Nat) : Int) = (i : Int) - 6 := by omega
  have elen : (buf.length : Int) - ((i : Int) - 7) - 1
      = (buf.length : Int) - (i : Int) + 6 := by ring
  rw [scanContrib, e5, e0, e1, elen]

theorem bmh_loop_eq (buf : List Nat) :
    ∀ fuel i, buf.length ≤ i + fuel → 7 ≤ i →
      bmh_loop buf fuel i = naiveFrom buf (i - 7) (buf.length - (i - 7)) := by
  intro fuel
  induction fuel with
  | zero =>
      intro i h h7
      rw [bmh_loop, naiveFrom_eq_zero_of_near_end (i - 7) (by omega)]
  | succ fuel ih =>
      intro i h h7
      by_cases hi : i < buf.length
      · have hs1 : 1 ≤ macro_skip (byteAt buf (i : Int)) := macro_skip_pos _
        have hs8 : macro_skip (byteAt buf (i : Int)) ≤ 8 := macro_skip_le _
        rw [bmh_loop, if_pos hi, bmh_body_eq buf h7,
          ih (i + macro_skip (byteAt buf (i : Int))) (by omega) (by omega)]
        set s := macro_skip (byteAt buf (i : Int)) with hs
        have esplit : buf.length - (i - 7) = s + (buf.length - (i - 7) - s) := by omega
        rw [esplit, naiveFrom_split buf (i - 7) s (buf.length - (i - 7) - s)]
        have e2 : i - 7 + s = i + s - 7 := by omega
        have e3 : buf.length - (i - 7) - s = buf.length - (i + s - 7) := by omega
        rw [e2, e3]
        have ehead : naiveFrom buf (i - 7) s = scanContrib buf (i - 7) := by
          have es : s = (s - 1) + 1 := by omega
          rw [es, naiveFrom]
          have hz : naiveFrom buf (i - 7 + 1) (s - 1) = 0 := by
            apply naiveFrom_eq_zero_of_contrib
            intro d hd1 hd2
            have ed : d = (i - 7) + (d - (i - 7)) := by omega
            rw [ed]
            apply skip_safety buf (i - 7) (d - (i - 7)) (by omega)
            have e7 : (i - 7 + 7 : Nat) = i := by omega
            rw [e7, ← hs]
            omega
          rw [hz, Nat.or_zero]
        rw [ehead]
      · rw [bmh_loop, if_neg hi, naiveFrom_eq_zero_of_near_end (i - 7) (by omega)]

theorem check_for_temporal_macros_bmh_eq_naive (buf : List Nat) :
    check_for_temporal_macros_bmh buf = naiveScan buf := by
  rw [check_for_temporal_macros_bmh, bmh_loop_eq buf buf.length 7 (by omega) (by omega)]
  norm_num [naiveScan]

/-- Byte values of the full `"__TIMESTAMP__"` token. -/
def mTIMESTAMP : List Nat := [95, 95, 84, 73, 77, 69, 83, 84, 65, 77, 80, 95, 95]

theorem byteAt_ge (buf : List Nat) (k : Nat) (h : buf.length ≤ k) :
    byteAt buf (k : Int) = 0 := by
  rw [byteAt_ofNat, List.getD_eq_default _ _ h]

theorem byteAt_append_right (u m : List Nat) (k : Nat) :
    byteAt (u ++ m) ((u.length + k : Nat) : Int) = m.getD k 0 := by
  rw [byteAt_ofNat, List.getD_append_right u m 0 _ (by omega)]
  congr 1
  omega

theorem byteAt_append_left (u m : List Nat) (k : Nat) (hk : k < u.length) :
    byteAt (u ++ m) (k : Int) = byteAt u (k : Int) := by
  rw [byteAt_ofNat, byteAt_ofNat, List.getD_append u m 0 k hk]

theorem matchList_of_forall {buf : List Nat} {needle : List Nat} :
    ∀ {p : Int}, (∀ k, k < needle.length → byteAt buf (p + (k : Int)) = needle.getD k 0) →
      matchList buf p needle = true := by
  induction needle with
  | nil => intro p _; rfl
  | cons c rest ih =>
      intro p h
      rw [matchList, Bool.and_eq_true, beq_iff_eq]
      refine ⟨by simpa using h 0 (by simp), ih ?_⟩
      intro k hk
      have e : (p + 1) + (k : Int) = p + ((k + 1 : Nat) : Int) := by push_cast; ring
      rw [e]
      simpa using h (k + 1) (by simpa using Nat.succ_lt_succ hk)

theorem and_mask_or_left {a b f : Nat} (h : a &&& f = f) : (a ||| b) &&& f = f := by
  apply Nat.eq_of_testBit_eq
  intro k
  have h2 := congrArg (fun n => Nat.testBit n k) h
  simp only [Nat.testBit_and, Nat.testBit_or] at h2 ⊢
  cases hf : Nat.testBit f k
  · simp [hf]
  · rw [hf] at h2
    simp at h2
    simp [hf, h2]

theorem and_mask_or_right {a b f : Nat} (h : b &&& f = f) : (a ||| b) &&& f = f := by
  rw [Nat.or_comm]
  exact and_mask_or_left h

theorem naiveFrom_mask (buf : List Nat) (f : Nat) :
    ∀ n q d, q ≤ d → d < q + n → scanContrib buf d &&& f = f →
      naiveFrom buf q n &&& f = f := by
  intro n
  induction n with
  | zero => intro q d h1 h2 h3; omega
  | succ n ih =>
      intro q d h1 h2 h3
      rw [naiveFrom]
      rcases Nat.eq_or_lt_of_le h1 with he | hlt
      · subst he
        exact and_mask_or_left h3
      · exact and_mask_or_right (ih (q + 1) d (by omega) (by omega) h3)

theorem scanContrib_date_at_end (u : List Nat)
    (hpre : idChar (byteAt (u ++ wDATE) ((u.length : Int) - 1)) = false) :
    scanContrib (u ++ wDATE) u.length = 2 := by
  have hlen : (u ++ wDATE).length = u.length + 8 := by simp [wDATE]
  have hb : ∀ k, byteAt (u ++ wDATE) ((u.length + k : Nat) : Int) = wDATE.getD k 0 :=
    fun k => byteAt_append_right u wDATE k
  have h0 : byteAt (u ++ wDATE) ((u.length : Nat) : Int) = 95 := by simpa using hb 0
  have h5 : byteAt (u ++ wDATE) ((u.length + 5 : Nat) : Int) = 69 := by simpa using hb 5
  rw [scanContrib, if_pos ⟨h5, h0⟩, check_for_temporal_macros_helper]
  rw [if_neg (by rw [hlen]; push_cast; omega)]
  have haux : ∀ k, k < 7 → wDATE.getD (1 + k) 0 = nDATE.getD k 0 := by decide
  have hmatch : matchList (u ++ wDATE) ((u.length + 1 : Nat) : Int) nDATE = true := by
    apply matchList_of_forall
    intro k hk
    have e : ((u.length + 1 : Nat) : Int) + (k : Int) = ((u.length + (1 + k) : Nat) : Int) := by
      push_cast; ring
    rw [e, hb (1 + k), haux k (by simpa [nDATE] using hk)]
  rw [if_pos hmatch]
  have hbefore :
      idChar (byteAt (u ++ wDATE) (((u.length + 1 : Nat) : Int) - 2)) = false := by
    have e : ((u.length + 1 : Nat) : Int) - 2 = (u.length : Int) - 1 := by push_cast; ring
    rw [e]
    exact hpre
  have hafter :
      idChar (byteAt (u ++ wDATE) (((u.length + 1 : Nat) : Int) + 7)) = false := by
    have e : ((u.length + 1 : Nat) : Int) + 7 = ((u.length + 8 : Nat) : Int) := by
      push_cast; ring
    rw [e, byteAt_ge (u ++ wDATE) (u.length + 8) (by omega)]
    decide
  rw [if_pos ⟨hbefore, hafter⟩]
  rfl

theorem scanContrib_time_at_end (u : List Nat)
    (hpre : idChar (byteAt (u ++ wTIME) ((u.length : Int) - 1)) = false) :
    scanContrib (u ++ wTIME) u.length = 4 := by
  have hlen : (u ++ wTIME).length = u.length + 8 := by simp [wTIME]
  have hb : ∀ k, byteAt (u ++ wTIME) ((u.length + k : Nat) : Int) = wTIME.getD k 0 :=
    fun k => byteAt_append_right u wTIME k
  have h0 : byteAt (u ++ wTIME) ((u.length : Nat) : Int) = 95 := by simpa using hb 0
  have h5 : byteAt (u ++ wTIME) ((u.length + 5 : Nat) : Int) = 69 := by simpa using hb 5
  rw [scanContrib, if_pos ⟨h5, h0⟩, check_for_temporal_macros_helper]
  rw [if_neg (by rw [hlen]; push_cast; omega)]
  have hnD : ¬ (matchList (u ++ wTIME) ((u.length + 1 : Nat) : Int) nDATE = true) := by
    intro hm
    have h1 := matchList_forall hm 1 (by decide)
    have e : ((u.length + 1 : Nat) : Int) + ((1 : Nat) : Int) = ((u.length + 2 : Nat) : Int) := by
      push_cast; ring
    rw [e, hb 2] at h1
    simp [wTIME, nDATE] at h1
  rw [if_neg hnD]
  have haux : ∀ k, k < 7 → wTIME.getD (1 + k) 0 = nTIME.getD k 0 := by decide
  have hmatch : matchList (u ++ wTIME) ((u.length + 1 : Nat) : Int) nTIME = true := by
    apply matchList_of_forall
    intro k hk
    have e : ((u.length + 1 : Nat) : Int) + (k : Int) = ((u.length + (1 + k) : Nat) : Int) := by
      push_cast; ring
    rw [e, hb (1 + k), haux k (by simpa [nTIME] using hk)]
  rw [if_pos hmatch]
  have hbefore :
      idChar (byteAt (u ++ wTIME) (((u.length + 1 : Nat) : Int) - 2)) = false := by
    have e : ((u.length + 1 : Nat) : Int) - 2 = (u.length : Int) - 1 := by push_cast; ring
    rw [e]
    exact hpre
  have hafter :
      idChar (byteAt (u ++ wTIME) (((u.length + 1 : Nat) : Int) + 7)) = false := by
    have e : ((u.length + 1 : Nat) : Int) + 7 = ((u.length + 8 : Nat) : Int) := by
      push_cast; ring
    rw [e, byteAt_ge (u ++ wTIME) (u.length + 8) (by omega)]
    decide
  rw [if_pos ⟨hbefore, hafter⟩]
  rfl

theorem scanContrib_timestamp_at_end (u : List Nat)
    (hpre : idChar (byteAt (u ++ mTIMESTAMP) ((u.length : Int) - 1)) = false) :
    scanContrib (u ++ mTIMESTAMP) u.length = 8 := by
  have hlen : (u ++ mTIMESTAMP).length = u.length + 13 := by simp [mTIMESTAMP]
  have hb : ∀ k, byteAt (u ++ mTIMESTAMP) ((u.length + k : Nat) : Int)
      = mTIMESTAMP.getD k 0 :=
    fun k => byteAt_append_right u mTIMESTAMP k
  have h0 : byteAt (u ++ mTIMESTAMP) ((u.length : Nat) : Int) = 95 := by simpa using hb 0
  have h5 : byteAt (u ++ mTIMESTAMP) ((u.length + 5 : Nat) : Int) = 69 := by
    simpa using hb 5
  rw [scanContrib, if_pos ⟨h5, h0⟩, check_for_temporal_macros_helper]
  rw [if_neg (by rw [hlen]; push_cast; omega)]
  have hnD : ¬ (matchList (u ++ mTIMESTAMP) ((u.length + 1 : Nat) : Int) nDATE = true) := by
    intro hm
    have h1 := matchList_forall hm 1 (by decide)
    have e : ((u.length + 1 : Nat) : Int) + ((1 : Nat) : Int) = ((u.length + 2 : Nat) : Int) := by
      push_cast; ring
    rw [e, hb 2] at h1
    simp [mTIMESTAMP, nDATE] at h1
  rw [if_neg hnD]
  have hnT : ¬ (matchList (u ++ mTIMESTAMP) ((u.length + 1 : Nat) : Int) nTIME = true) := by
    intro hm
    have h1 := matchList_forall hm 5 (by decide)
    have e : ((u.length + 1 : Nat) : Int) + ((5 : Nat) : Int) = ((u.length + 6 : Nat) : Int) := by
      push_cast; ring
    rw [e, hb 6] at h1
    simp [mTIMESTAMP, nTIME] at h1
  rw [if_neg hnT]
  have haux : ∀ k, k < 12 → mTIMESTAMP.getD (1 + k) 0 = nTIMESTAMP.getD k 0 := by decide
  have hmatch :
      matchList (u ++ mTIMESTAMP) ((u.length + 1 : Nat) : Int) nTIMESTAMP = true := by
    apply matchList_of_forall
    intro k hk
    have e : ((u.length + 1 : Nat) : Int) + (k : Int) = ((u.length + (1 + k) : Nat) : Int) := by
      push_cast; ring
    rw [e, hb (1 + k), haux k (by simpa [nTIMESTAMP] using hk)]
  rw [if_pos ⟨by rw [hlen]; push_cast; omega, hmatch⟩]
  have hbefore :
      idChar (byteAt (u ++ mTIMESTAMP) (((u.length + 1 : Nat) : Int) - 2)) = false := by
    have e : ((u.length + 1 : Nat) : Int) - 2 = (u.length : Int) - 1 := by push_cast; ring
    rw [e]
    exact hpre
  have hafter :
      idChar (byteAt (u ++ mTIMESTAMP) (((u.length + 1 : Nat) : Int) + 12)) = false := by
    have e : ((u.length + 1 : Nat) : Int) + 12 = ((u.length + 13 : Nat) : Int) := by
      push_cast; ring
    rw [e, byteAt_ge (u ++ mTIMESTAMP) (u.length + 13) (by omega)]
    decide
  rw [if_pos ⟨hbefore, hafter⟩]
  rfl

/-- C1: for every padded buffer, the scalar Boyer-Moore-Horspool scan
`check_for_temporal_macros_bmh` and the vectorized scan
`check_for_temporal_macros_avx2` return the same findings bitmask. -/
theorem bmh_avx2_same_findings (buf : List Nat) :
    check_for_temporal_macros_bmh buf = check_for_temporal_macros_avx2 buf := by
  rw [check_for_temporal_macros_bmh_eq_naive, check_for_temporal_macros_avx2_eq_naive]

/-- C6: the scanner's mandatory edge cases.  The empty buffer scans to `0`
on both paths; every buffer shorter than 8 bytes scans to `0` on both paths;
a macro whose trailing underscores end exactly at the end of the buffer is
accepted (its findings bit is set) whenever the byte before it is not an
identifier character, for each of the three macros; and `"___DATE___"`
scans to `0` because the extra leading underscore is an identifier
character. -/
theorem scanner_edge_cases :
    (check_for_temporal_macros_bmh [] = 0 ∧ check_for_temporal_macros_avx2 [] = 0)
    ∧ (∀ buf : List Nat, buf.length < 8 →
        check_for_temporal_macros_bmh buf = 0 ∧ check_for_temporal_macros_avx2 buf = 0)
    ∧ (∀ u : List Nat, idChar (byteAt (u ++ wDATE) ((u.length : Int) - 1)) = false →
        check_for_temporal_macros (u ++ wDATE) &&& 2 = 2)
    ∧ (∀ u : List Nat, idChar (byteAt (u ++ wTIME) ((u.length : Int) - 1)) = false →
        check_for_temporal_macros (u ++ wTIME) &&& 4 = 4)
    ∧ (∀ u : List Nat, idChar (byteAt (u ++ mTIMESTAMP) ((u.length : Int) - 1)) = false →
        check_for_temporal_macros (u ++ mTIMESTAMP) &&& 8 = 8)
    ∧ check_for_temporal_macros [95, 95, 95, 68, 65, 84, 69, 95, 95, 95] = 0 := by
  refine ⟨⟨by decide, by decide⟩, ?_, ?_, ?_, ?_, by decide⟩
  · intro buf h
    constructor
    · rw [check_for_temporal_macros_bmh_eq_naive, naiveScan,
        naiveFrom_eq_zero_of_near_end 0 (by omega)]
    · rw [check_for_temporal_macros_avx2_eq_naive, naiveScan,
        naiveFrom_eq_zero_of_near_end 0 (by omega)]
  · intro u h
    rw [check_for_temporal_macros, check_for_temporal_macros_bmh_eq_naive, naiveScan]
    exact naiveFrom_mask (u ++ wDATE) 2 (u ++ wDATE).length 0 u.length (by omega)
      (by simp [wDATE]) (by rw [scanContrib_date_at_end u h]; decide)
  · intro u h
    rw [check_for_temporal_macros, check_for_temporal_macros_bmh_eq_naive, naiveScan]
    exact naiveFrom_mask (u ++ wTIME) 4 (u ++ wTIME).length 0 u.length (by omega)
      (by simp [wTIME]) (by rw [scanContrib_time_at_end u h]; decide)
  · intro u h
    rw [check_for_temporal_macros, check_for_temporal_macros_bmh_eq_naive, naiveScan]
    exact naiveFrom_mask (u ++ mTIMESTAMP) 8 (u ++ mTIMESTAMP).length 0 u.length (by omega)
      (by simp [mTIMESTAMP]) (by rw [scanContrib_timestamp_at_end u h]; decide)

/-- Witness for the hypothesis-bearing parts of the edge-case theorem,
instantiated at concrete buffers. -/
theorem scanner_edge_cases_witness :
    (check_for_temporal_macros_bmh [95, 95, 95] = 0
      ∧ check_for_temporal_macros_avx2 [95, 95, 95] = 0)
    ∧ check_for_temporal_macros ([32] ++ wDATE) &&& 2 = 2
    ∧ check_for_temporal_macros ([32] ++ wTIME) &&& 4 = 4
    ∧ check_for_temporal_macros ([32] ++ mTIMESTAMP) &&& 8 = 8 :=
  ⟨scanner_edge_cases.2.1 [95, 95, 95] (by decide),
   scanner_edge_cases.2.2.1 [32] (by decide),
   scanner_edge_cases.2.2.2.1 [32] (by decide),
   scanner_edge_cases.2.2.2.2.1 [32] (by decide)⟩

/-- C10: the scalar scan terminates on every buffer.  Every entry of the
skip table is at least 1, hence the cursor strictly increases on every
iteration, and running the loop with any fuel at least the buffer length
gives the same (final) result as the canonical run: the loop has reached
its exit condition after at most `buf.length` steps. -/
theorem bmh_terminates :
    (∀ c, c < 256 → 1 ≤ macro_skip c)
    ∧ (∀ (buf : List Nat) (i : Nat), i < i + macro_skip (byteAt buf (i : Int)))
    ∧ (∀ (buf : List Nat) (fuel : Nat), buf.length ≤ fuel →
        bmh_loop buf fuel 7 = check_for_temporal_macros_bmh buf) := by
  refine ⟨fun c _ => macro_skip_pos c, fun buf i => ?_, fun buf fuel h => ?_⟩
  · have := macro_skip_pos (byteAt buf (i : Int))
    omega
  · rw [check_for_temporal_macros_bmh, bmh_loop_eq buf fuel 7 (by omega) (by omega),
      bmh_loop_eq buf buf.length 7 (by omega) (by omega)]

/-- Witness for the termination theorem at a concrete buffer and fuel. -/
theorem bmh_terminates_witness :
    1 ≤ macro_skip 95
    ∧ bmh_loop [95, 95, 68, 65, 84, 69, 95, 95] 20 7
        = check_for_temporal_macros_bmh [95, 95, 68, 65, 84, 69, 95, 95] :=
  ⟨bmh_terminates.1 95 (by decide),
   bmh_terminates.2.2 [95, 95, 68, 65, 84, 69, 95, 95] 20 (by decide)⟩

theorem allId_byte (buf : List Nat) (hAll : ∀ b ∈ buf, idChar b = true) :
    ∀ j : Nat, j < buf.length → idChar (byteAt buf (j : Int)) = true := by
  intro j hj
  rw [byteAt_ofNat, List.getD_eq_getElem _ _ hj]
  exact hAll _ (List.getElem_mem _)

theorem allId_contrib {buf : List Nat} (hAll : ∀ b ∈ buf, idChar b = true) {q : Nat}
    (h : scanContrib buf q ≠ 0) :
    q = 0 ∧ (buf.length = 8
      ∨ (buf.length = 13 ∧ matchList buf ((1 : Nat) : Int) nTIMESTAMP = true)) := by
  rw [scanContrib] at h
  split_ifs at h with hc
  · obtain ⟨hpre, hcase⟩ := helper_inv h
    have hq_lt : q < buf.length := byteAt_lt_length (by rw [hc.2]; omega)
    have hq0 : q = 0 := by
      by_contra hq
      have h1 : (1 : Nat) ≤ q := by omega
      have e : ((q + 1 : Nat) : Int) - 2 = ((q - 1 : Nat) : Int) := by omega
      rw [e, allId_byte buf hAll (q - 1) (by omega)] at hpre
      exact Bool.noConfusion hpre
    subst hq0
    refine ⟨rfl, ?_⟩
    rcases hcase with ⟨hm, hafter⟩ | ⟨hm, hafter⟩ | ⟨_, hm, hafter⟩
    · left
      have e8 : ((0 + 1 : Nat) : Int) + 7 = ((8 : Nat) : Int) := by norm_num
      rw [e8] at hafter
      have hle : ¬ (8 < buf.length) := by
        intro hlt
        rw [allId_byte buf hAll 8 hlt] at hafter
        exact Bool.noConfusion hafter
      have h95 := matchList_forall hm 6 (by decide)
      have e7 : ((0 + 1 : Nat) : Int) + ((6 : Nat) : Int) = ((7 : Nat) : Int) := by norm_num
      rw [e7] at h95
      have h7lt : 7 < buf.length := byteAt_lt_length (by rw [h95]; decide)
      omega
    · left
      have e8 : ((0 + 1 : Nat) : Int) + 7 = ((8 : Nat) : Int) := by norm_num
      rw [e8] at hafter
      have hle : ¬ (8 < buf.length) := by
        intro hlt
        rw [allId_byte buf hAll 8 hlt] at hafter
        exact Bool.noConfusion hafter
      have h95 := matchList_forall hm 6 (by decide)
      have e7 : ((0 + 1 : Nat) : Int) + ((6 : Nat) : Int) = ((7 : Nat) : Int) := by norm_num
      rw [e7] at h95
      have h7lt : 7 < buf.length := byteAt_lt_length (by rw [h95]; decide)
      omega
    · right
      have e13 : ((0 + 1 : Nat) : Int) + 12 = ((13 : Nat) : Int) := by norm_num
      rw [e13] at hafter
      have hle : ¬ (13 < buf.length) := by
        intro hlt
        rw [allId_byte buf hAll 13 hlt] at hafter
        exact Bool.noConfusion hafter
      have h95 := matchList_forall hm 11 (by decide)
      have e12 : ((0 + 1 : Nat) : Int) + ((11 : Nat) : Int) = ((12 : Nat) : Int) := by norm_num
      rw [e12] at h95
      have h12lt : 12 < buf.length := byteAt_lt_length (by rw [h95]; decide)
      refine ⟨by omega, by simpa using hm⟩
  · exact absurd rfl h

theorem sandwich_scan_zero (P M S : List Nat)
    (hP : ∀ b ∈ P, idChar b = true) (hM : ∀ b ∈ M, idChar b = true)
    (hS : ∀ b ∈ S, idChar b = true)
    (hPne : P ≠ []) (hSne : S ≠ [])
    (hM8 : 8 ≤ M.length) (hM1 : M.getD 1 0 = 95) :
    naiveScan (P ++ M ++ S) = 0 := by
  have hAll : ∀ b ∈ P ++ M ++ S, idChar b = true := by
    intro b hb
    simp only [List.mem_append] at hb
    rcases hb with (hb | hb) | hb
    exacts [hP b hb, hM b hb, hS b hb]
  have hlen : (P ++ M ++ S).length = P.length + M.length + S.length := by
    simp [Nat.add_assoc]
  have hPlen : 1 ≤ P.length := List.length_pos.mpr hPne
  have hSlen : 1 ≤ S.length := List.length_pos.mpr hSne
  rw [naiveScan]
  apply naiveFrom_eq_zero_of_contrib
  intro q _ _
  by_contra hq
  obtain ⟨hq0, hdis⟩ := allId_contrib hAll hq
  subst hq0
  rcases hdis with h8 | ⟨h13, hm⟩
  · omega
  · have hPle : P.length ≤ 4 := by omega
    have hMat : byteAt (P ++ M ++ S) ((P.length + 1 : Nat) : Int) = 95 := by
      rw [List.append_assoc, byteAt_append_right P (M ++ S) 1,
        List.getD_append M S 0 1 (by omega), hM1]
    have hTS := matchList_forall hm P.length
      (by have : nTIMESTAMP.length = 12 := by decide
          omega)
    have e : ((1 : Nat) : Int) + (P.length : Int) = ((P.length + 1 : Nat) : Int) := by
      push_cast; ring
    rw [e, hMat] at hTS
    have hne : ∀ n, 1 ≤ n → n ≤ 4 → ¬ (nTIMESTAMP.getD n 0 = 95) := by decide
    exact hne P.length hPlen hPle hTS.symm

/-- C2 counterexample: with the empty (hence all-identifier-character)
prefix and suffix, scanning `prefix ++ "__DATE__" ++ suffix` yields
`FOUND_DATE`, not `0`. -/
theorem token_boundary_counterexample :
    (∀ b ∈ ([] : List Nat), idChar b = true)
      ∧ ¬ (check_for_temporal_macros (([] : List Nat) ++ wDATE ++ []) = 0) := by
  constructor
  · intro b hb
    exact absurd hb (List.not_mem_nil b)
  · decide

set_option maxRecDepth 40000 in
/-- C2 (amended): for all nonempty prefix and suffix composed only of
identifier characters, scanning `prefix ++ macro ++ suffix` yields `0`; and
for every non-identifier byte `c`, scanning `c ++ macro ++ c` yields exactly
the macro's findings bit; for each of the three temporal macros. -/
theorem token_boundary_amended :
    (∀ P S : List Nat, (∀ b ∈ P, idChar b = true) → (∀ b ∈ S, idChar b = true) →
      P ≠ [] → S ≠ [] →
      check_for_temporal_macros (P ++ wDATE ++ S) = 0
        ∧ check_for_temporal_macros (P ++ wTIME ++ S) = 0
        ∧ check_for_temporal_macros (P ++ mTIMESTAMP ++ S) = 0)
    ∧ (∀ c, c < 256 → idChar c = false →
        check_for_temporal_macros (c :: (wDATE ++ [c])) = 2
          ∧ check_for_temporal_macros (c :: (wTIME ++ [c])) = 4
          ∧ check_for_temporal_macros (c :: (mTIMESTAMP ++ [c])) = 8) := by
  constructor
  · intro P S hP hS hPne hSne
    refine ⟨?_, ?_, ?_⟩
    · rw [check_for_temporal_macros, check_for_temporal_macros_bmh_eq_naive]
      exact sandwich_scan_zero P wDATE S hP (by decide) hS hPne hSne (by decide) (by decide)
    · rw [check_for_temporal_macros, check_for_temporal_macros_bmh_eq_naive]
      exact sandwich_scan_zero P wTIME S hP (by decide) hS hPne hSne (by decide) (by decide)
    · rw [check_for_temporal_macros, check_for_temporal_macros_bmh_eq_naive]
      exact sandwich_scan_zero P mTIMESTAMP S hP (by decide) hS hPne hSne (by decide)
        (by decide)
  · decide

/-- Witness for the amended token-boundary theorem at concrete inputs. -/
theorem token_boundary_amended_witness :
    check_for_temporal_macros ([97] ++ wDATE ++ [98]) = 0
      ∧ check_for_temporal_macros ((32 : Nat) :: (wDATE ++ [32])) = 2 :=
  ⟨(token_boundary_amended.1 [97] [98] (by decide) (by decide) (by decide) (by decide)).1,
   (token_boundary_amended.2 32 (by decide) (by decide)).1⟩

/-!
The source hasher `hash_source_code_string`.  The incremental hash handle is
an external capability; per the spec it absorbs byte slices, delimiter
labels and integers, so its state is modelled as the sequence of absorbed
events.  The wall clock, `localtime_r`, `Stat::stat` and `asctime` are
external calls whose outcomes form the environment of one invocation.
-/

/-- Modelled from the spec: the hash handle's state as the ordered sequence
of absorbed material (`hash_string_buffer`, `hash_delimiter`, `hash_int`
and `hash_string` of `hash.cpp`, which is not part of the sources). -/
inductive HashEvent where
  | bytes (data : List Nat)
  | delim (label : String)
  | int (value : Int)
  | str (s : String)
deriving DecidableEq

/-- Broken-down local time fields absorbed by the `__DATE__` branch. -/
structure Tm where
  tm_year : Int
  tm_mon : Int
  tm_mday : Int
deriving DecidableEq

/-- Modelled from the spec: the outcomes of the external calls made by one
invocation of `hash_source_code_string` — the local-time conversion of the
current wall-clock time, the `stat` of the path, the local-time conversion
of the file's mtime, and the `asctime` rendering. -/
structure HashEnv where
  localtime_now : Option Tm
  stat_ok : Bool
  mtime_tm : Option Tm
  asctime_str : Option String
deriving DecidableEq

/-- Modelled from the spec: the `SLOPPY_TIME_MACROS` flag bit of the
configuration's sloppiness bitmask (declared in `ccache.hpp`, which is not
part of the sources). -/
def SLOPPY_TIME_MACROS : Nat := 2

/-- The findings computation at the top of `hash_source_code_string`:
`result` starts as OK and the scanner runs unless the sloppiness
configuration contains `SLOPPY_TIME_MACROS`. -/
def hss_findings (sloppiness : Nat) (buf : List Nat) : Nat :=
  HASH_SOURCE_CODE_OK |||
    (if sloppiness &&& SLOPPY_TIME_MACROS = 0 then check_for_temporal_macros buf else 0)

/-- The `__TIME__` and `__TIMESTAMP__` branches of `hash_source_code_string`
(the `__TIME__` branch only logs and absorbs nothing).  In the
`__TIMESTAMP__` branch the stat failure returns ERROR before the delimiter,
while the local-time and `asctime` failures return ERROR after the
`"timestamp"` delimiter was absorbed. -/
def hss_rest (env : HashEnv) (hash : List HashEvent) (result : Nat) :
    Nat × List HashEvent :=
  if result &&& HASH_SOURCE_CODE_FOUND_TIMESTAMP ≠ 0 then
    if env.stat_ok = false then (HASH_SOURCE_CODE_ERROR, hash)
    else
      match env.mtime_tm with
      | none => (HASH_SOURCE_CODE_ERROR, hash ++ [HashEvent.delim "timestamp"])
      | some _ =>
          match env.asctime_str with
          | none => (HASH_SOURCE_CODE_ERROR, hash ++ [HashEvent.delim "timestamp"])
          | some ts => (result, hash ++ [HashEvent.delim "timestamp", HashEvent.str ts])
  else (result, hash)

/-- Model of `hash_source_code_string`: compute the findings, absorb the
buffer, then run the `__DATE__` branch (which absorbs the `"date"` delimiter
before testing the local-time conversion and returns ERROR on conversion
failure) followed by the remaining branches. -/
def hash_source_code_string (sloppiness : Nat) (env : HashEnv)
    (hash : List HashEvent) (buf : List Nat) : Nat × List HashEvent :=
  let result := hss_findings sloppiness buf
  let h1 := hash ++ [HashEvent.bytes buf]
  if result &&& HASH_SOURCE_CODE_FOUND_DATE ≠ 0 then
    let h2 := h1 ++ [HashEvent.delim "date"]
    match env.localtime_now with
    | none => (HASH_SOURCE_CODE_ERROR, h2)
    | some now =>
        hss_rest env
          (h2 ++ [HashEvent.int now.tm_year, HashEvent.int now.tm_mon,
            HashEvent.int now.tm_mday]) result
  else hss_rest env h1 result

/-- C3 counterexample: on a buffer whose findings include FOUND_DATE and an
environment whose local-time conversion fails, the function returns ERROR
with the `"date"` delimiter already absorbed into the hash, refuting the
claim that the delimiter is absorbed only after a successful conversion. -/
theorem date_branch_counterexample :
    (hash_source_code_string 0 ⟨none, true, none, none⟩ [] wDATE).1
        = HASH_SOURCE_CODE_ERROR
      ∧ (hash_source_code_string 0 ⟨none, true, none, none⟩ [] wDATE).2
        = [HashEvent.bytes wDATE, HashEvent.delim "date"] := by
  constructor <;> rfl

/-- C3 (amended): when the findings include FOUND_DATE, the wall-clock time
is read and converted to broken-down local time; the delimiter `"date"` is
absorbed right after the buffer bytes and before the conversion is checked;
if the conversion fails the function returns ERROR with the delimiter
already absorbed; if it succeeds the integers year, month and day-of-month
are absorbed in that order and the remaining branches run. -/
theorem date_branch_behavior (slop : Nat) (env : HashEnv) (hash : List HashEvent)
    (buf : List Nat)
    (hdate : hss_findings slop buf &&& HASH_SOURCE_CODE_FOUND_DATE ≠ 0) :
    (env.localtime_now = none →
      hash_source_code_string slop env hash buf
        = (HASH_SOURCE_CODE_ERROR,
            hash ++ [HashEvent.bytes buf, HashEvent.delim "date"]))
    ∧ (∀ now, env.localtime_now = some now →
        hash_source_code_string slop env hash buf
          = hss_rest env
              (hash ++ [HashEvent.bytes buf, HashEvent.delim "date",
                HashEvent.int now.tm_year, HashEvent.int now.tm_mon,
                HashEvent.int now.tm_mday])
              (hss_findings slop buf)) := by
  constructor
  · intro hnone
    simp [hash_source_code_string, hdate, hnone]
  · intro now hsome
    simp [hash_source_code_string, hdate, hsome]

/-- Witness for the amended `__DATE__` branch theorem at a failing
conversion. -/
theorem date_branch_behavior_witness :
    hash_source_code_string 0 ⟨none, true, none, none⟩ [] wDATE
      = (HASH_SOURCE_CODE_ERROR,
          [] ++ [HashEvent.bytes wDATE, HashEvent.delim "date"]) :=
  (date_branch_behavior 0 ⟨none, true, none, none⟩ [] wDATE (by decide)).1 rfl

/-- C4: with `SLOPPY_TIME_MACROS` set in the configuration, the returned
findings mask is OK (0) and the only material absorbed into the hash handle
is the live buffer bytes, for every environment, hash state, buffer and
path. -/
theorem sloppy_time_macros_opt_out (slop : Nat) (env : HashEnv)
    (hash : List HashEvent) (buf : List Nat)
    (hset : slop &&& SLOPPY_TIME_MACROS ≠ 0) :
    hash_source_code_string slop env hash buf
      = (HASH_SOURCE_CODE_OK, hash ++ [HashEvent.bytes buf]) := by
  have hf : hss_findings slop buf = 0 := by
    rw [hss_findings, if_neg hset]
    decide
  simp [hash_source_code_string, hss_rest, hf, HASH_SOURCE_CODE_FOUND_DATE,
    HASH_SOURCE_CODE_FOUND_TIMESTAMP, HASH_SOURCE_CODE_OK]

/-- Witness for the sloppiness opt-out at a concrete configuration. -/
theorem sloppy_time_macros_opt_out_witness :
    hash_source_code_string 2 ⟨none, false, none, none⟩ [] wDATE
      = (HASH_SOURCE_CODE_OK, [] ++ [HashEvent.bytes wDATE]) :=
  sloppy_time_macros_opt_out 2 ⟨none, false, none, none⟩ [] wDATE (by decide)

/-- C5: when the scanner runs and its findings are exactly FOUND_TIME, the
function returns a mask with FOUND_TIME set and absorbs nothing beyond the
buffer bytes; the outcome does not depend on the environment, so two runs
at different wall-clock seconds leave the hash handle in equal states. -/
theorem time_only_no_entropy (slop : Nat) (env1 env2 : HashEnv)
    (hash : List HashEvent) (buf : List Nat)
    (hrun : slop &&& SLOPPY_TIME_MACROS = 0)
    (hscan : check_for_temporal_macros buf = HASH_SOURCE_CODE_FOUND_TIME) :
    hash_source_code_string slop env1 hash buf
        = (HASH_SOURCE_CODE_FOUND_TIME, hash ++ [HashEvent.bytes buf])
      ∧ hash_source_code_string slop env1 hash buf
        = hash_source_code_string slop env2 hash buf := by
  have hf : hss_findings slop buf = HASH_SOURCE_CODE_FOUND_TIME := by
    rw [hss_findings, if_pos hrun, hscan]
    decide
  have key : ∀ env : HashEnv, hash_source_code_string slop env hash buf
      = (HASH_SOURCE_CODE_FOUND_TIME, hash ++ [HashEvent.bytes buf]) := by
    intro env
    have h42 : (4 : Nat) &&& 2 = 0 := by decide
    have h48 : (4 : Nat) &&& 8 = 0 := by decide
    simp [hash_source_code_string, hss_rest, hf, HASH_SOURCE_CODE_FOUND_TIME,
      HASH_SOURCE_CODE_FOUND_DATE, HASH_SOURCE_CODE_FOUND_TIMESTAMP, h42, h48]
  exact ⟨key env1, (key env1).trans (key env2).symm⟩

/-- Witness for the FOUND_TIME theorem: two different clock environments at
the same buffer produce the same outcome. -/
theorem time_only_no_entropy_witness :
    hash_source_code_string 0 ⟨some ⟨120, 5, 1⟩, true, none, none⟩ [] wTIME
      = (HASH_SOURCE_CODE_FOUND_TIME, [] ++ [HashEvent.bytes wTIME]) :=
  (time_only_no_entropy 0 ⟨some ⟨120, 5, 1⟩, true, none, none⟩
    ⟨some ⟨121, 6, 2⟩, true, none, none⟩ [] wTIME (by decide) (by decide)).1

/-!
The command runner `hash_command_output` (POSIX path) and the orchestrator
`hash_multicommand_output`.  Process creation, the pipe, `hash_fd` and
`waitpid` are external; the observable outcomes of one invocation form its
environment.
-/

/-- Modelled from the spec: outcomes of the external process calls of one
`hash_command_output` invocation on the fork platform — whether `pipe` and
`fork` succeed, the bytes the parent drains from the child's combined
stdout/stderr (absorbed by `hash_fd`), whether `hash_fd` reported an I/O
error, whether `waitpid` returned the child's pid, and the child's
`WIFEXITED` flag and `WEXITSTATUS` code. -/
structure CmdEnv where
  pipe_ok : Bool
  fork_ok : Bool
  output : List Nat
  hash_fd_ok : Bool
  waitpid_ok : Bool
  wifexited : Bool
  wexitstatus : Nat
deriving DecidableEq

/-- Result of `hash_command_output`: the `fatal` calls on pipe and fork
failure abort the whole process, everything else returns a boolean. -/
inductive CmdResult where
  | fatal (msg : String)
  | ret (ok : Bool)
deriving DecidableEq

/-- Model of `hash_command_output` (POSIX path; the `_WIN32` path is under
a different preprocessor branch and is not modelled).  The command string
and the `%compiler%` substitution only determine what the child executes,
which the environment's outcomes already capture.  In the parent, `hash_fd`
absorbs the drained bytes before the `waitpid` and exit-status checks. -/
def hash_command_output (command compiler : List Nat) (env : CmdEnv)
    (hash : List HashEvent) : CmdResult × List HashEvent :=
  if env.pipe_ok = false then (CmdResult.fatal "pipe failed", hash)
  else if env.fork_ok = false then (CmdResult.fatal "fork failed", hash)
  else
    let h1 := hash ++ [HashEvent.bytes env.output]
    if env.waitpid_ok = false then (CmdResult.ret false, h1)
    else if env.wifexited = false ∨ env.wexitstatus ≠ 0 then (CmdResult.ret false, h1)
    else (CmdResult.ret env.hash_fd_ok, h1)

/-- Whether one command invocation returns `true`: absorption reported no
I/O error, the wait succeeded, and the child exited normally with code 0. -/
def cmd_success (env : CmdEnv) : Bool :=
  env.hash_fd_ok && env.waitpid_ok && env.wifexited && (env.wexitstatus == 0)

theorem hash_command_output_run (command compiler : List Nat) (env : CmdEnv)
    (hash : List HashEvent) (hp : env.pipe_ok = true) (hf : env.fork_ok = true) :
    hash_command_output command compiler env hash
      = (CmdResult.ret (cmd_success env), hash ++ [HashEvent.bytes env.output]) := by
  obtain ⟨p, f, out, hok, wok, we, ws⟩ := env
  simp only at hp hf
  subst hp
  subst hf
  by_cases hws : ws = 0 <;> cases hok <;> cases wok <;> cases we <;>
    simp [hash_command_output, cmd_success, hws]

/-- C7 counterexample: an invocation where the pipe, the fork and the
absorption succeed and the child exits normally with code 0, but `waitpid`
fails: the function returns `false` although all three conditions on the
right-hand side of the claimed equivalence hold. -/
theorem command_output_counterexample :
    (hash_command_output [97] [99] ⟨true, true, [104], true, false, true, 0⟩ []).1
        = CmdResult.ret false
      ∧ (⟨true, true, [104], true, false, true, 0⟩ : CmdEnv).hash_fd_ok = true
      ∧ (⟨true, true, [104], true, false, true, 0⟩ : CmdEnv).wifexited = true
      ∧ (⟨true, true, [104], true, false, true, 0⟩ : CmdEnv).wexitstatus = 0 :=
  ⟨rfl, rfl, rfl, rfl⟩

/-- C7 (amended): when pipe and fork succeed, `hash_command_output` returns
`true` if and only if the absorption reported no I/O error, the wait for the
child succeeded, the child exited normally, and its exit code was 0; pipe or
fork creation failure never produces a boolean return but aborts the whole
operation fatally. -/
theorem command_output_success (command compiler : List Nat) (env : CmdEnv)
    (hash : List HashEvent) :
    (env.pipe_ok = true → env.fork_ok = true →
      ((hash_command_output command compiler env hash).1 = CmdResult.ret true
        ↔ (env.hash_fd_ok = true ∧ env.waitpid_ok = true ∧ env.wifexited = true
            ∧ env.wexitstatus = 0)))
    ∧ (env.pipe_ok = false ∨ env.fork_ok = false →
        (hash_command_output command compiler env hash).1 = CmdResult.fatal "pipe failed"
          ∨ (hash_command_output command compiler env hash).1
            = CmdResult.fatal "fork failed") := by
  constructor
  · intro hp hf
    rw [hash_command_output_run command compiler env hash hp hf]
    obtain ⟨p, f, out, hok, wok, we, ws⟩ := env
    by_cases hws : ws = 0 <;> cases hok <;> cases wok <;> cases we <;>
      simp [cmd_success, hws]
  · intro hpf
    rcases hpf with hp | hf
    · left
      simp [hash_command_output, hp]
    · cases hp2 : env.pipe_ok
      · left
        simp [hash_command_output, hp2]
      · right
        simp [hash_command_output, hp2, hf]

/-- Witness for the command-output theorem, at a fully successful
environment and at a pipe-failure environment. -/
theorem command_output_success_witness :
    ((hash_command_output [97] [99] ⟨true, true, [104], true, true, true, 0⟩ []).1
        = CmdResult.ret true
      ↔ ((⟨true, true, [104], true, true, true, 0⟩ : CmdEnv).hash_fd_ok = true
          ∧ (⟨true, true, [104], true, true, true, 0⟩ : CmdEnv).waitpid_ok = true
          ∧ (⟨true, true, [104], true, true, true, 0⟩ : CmdEnv).wifexited = true
          ∧ (⟨true, true, [104], true, true, true, 0⟩ : CmdEnv).wexitstatus = 0))
    ∧ ((hash_command_output [97] [99] ⟨false, true, [], true, true, true, 0⟩ []).1
          = CmdResult.fatal "pipe failed"
        ∨ (hash_command_output [97] [99] ⟨false, true, [], true, true, true, 0⟩ []).1
          = CmdResult.fatal "fork failed") :=
  ⟨(command_output_success [97] [99] ⟨true, true, [104], true, true, true, 0⟩ []).1 rfl rfl,
   (command_output_success [97] [99] ⟨false, true, [], true, true, true, 0⟩ []).2
     (Or.inl rfl)⟩

/-- Model of the `strtok_r(p, ";", &saveptr)` tokenization used by
`hash_multicommand_output`: split the command string on `';'` (byte 59),
dropping empty segments. -/
def splitSemiAux : List Nat → List Nat → List (List Nat)
  | [], acc => if acc = [] then [] else [acc.reverse]
  | c :: rest, acc =>
    if c = 59 then
      if acc = [] then splitSemiAux rest []
      else acc.reverse :: splitSemiAux rest []
    else splitSemiAux rest (c :: acc)

/-- Segments of a command list string (see `splitSemiAux`). -/
def splitSemi (s : List Nat) : List (List Nat) :=
  splitSemiAux s []

/-- The `while (strtok_r(...))` loop of `hash_multicommand_output`: run
`hash_command_output` on each segment with the same compiler path, clearing
`ok` whenever a segment returns `false`; each invocation consumes the next
environment from the oracle.  A fatal invocation aborts the process. -/
def hmo_loop (compiler : List Nat) :
    (Nat → CmdEnv) → List (List Nat) → Bool → List HashEvent →
      CmdResult × List HashEvent
  | _, [], ok, hash => (CmdResult.ret ok, hash)
  | envs, c :: rest, ok, hash =>
    match hash_command_output c compiler (envs 0) hash with
    | (CmdResult.fatal msg, h) => (CmdResult.fatal msg, h)
    | (CmdResult.ret b, h) => hmo_loop compiler (fun n => envs (n + 1)) rest (ok && b) h

/-- Model of `hash_multicommand_output`. -/
def hash_multicommand_output (envs : Nat → CmdEnv) (commands compiler : List Nat)
    (hash : List HashEvent) : CmdResult × List HashEvent :=
  hmo_loop compiler envs (splitSemi commands) true hash

theorem hmo_loop_eq (compiler : List Nat) :
    ∀ (segs : List (List Nat)) (envs : Nat → CmdEnv) (ok : Bool) (hash : List HashEvent),
      (∀ j, j < segs.length → (envs j).pipe_ok = true ∧ (envs j).fork_ok = true) →
      hmo_loop compiler envs segs ok hash
        = (CmdResult.ret
            (ok && (List.range segs.length).all (fun j => cmd_success (envs j))),
           hash ++ (List.range segs.length).map
            (fun j => HashEvent.bytes (envs j).output)) := by
  intro segs
  induction segs with
  | nil => intro envs ok hash _; simp [hmo_loop]
  | cons c rest ih =>
      intro envs ok hash h
      rw [hmo_loop,
        hash_command_output_run c compiler (envs 0) hash (h 0 (by simp)).1 (h 0 (by simp)).2]
      dsimp only
      rw [ih (fun n => envs (n + 1)) (ok && cmd_success (envs 0))
        (hash ++ [HashEvent.bytes (envs 0).output])
        (fun j hj => h (j + 1) (by simpa using Nat.succ_lt_succ hj))]
      rw [List.length_cons, List.range_succ_eq_map]
      simp [Bool.and_assoc, Function.comp_def, Nat.succ_eq_add_one]

/-- C8: `hash_multicommand_output` splits its input on `';'` and runs
`hash_command_output` once per non-empty segment with the same compiler
path; when no segment is fatal it returns `true` exactly when every executed
segment returned `true`, and every segment is attempted even when an earlier
one failed: the output of each segment, in order, is absorbed into the
hash. -/
theorem multicommand_aggregate (envs : Nat → CmdEnv) (commands compiler : List Nat)
    (hash : List HashEvent)
    (hok : ∀ k, k < (splitSemi commands).length →
      (envs k).pipe_ok = true ∧ (envs k).fork_ok = true) :
    hash_multicommand_output envs commands compiler hash
      = (CmdResult.ret
          ((List.range (splitSemi commands).length).all (fun k => cmd_success (envs k))),
         hash ++ (List.range (splitSemi commands).length).map
          (fun k => HashEvent.bytes (envs k).output)) := by
  rw [hash_multicommand_output, hmo_loop_eq compiler (splitSemi commands) envs true hash hok,
    Bool.true_and]

/-- Witness: `"a;;b"` splits into two segments; the first succeeds and the
second exits with code 1, so the aggregate is `false` while both outputs
were absorbed. -/
theorem multicommand_aggregate_witness :
    hash_multicommand_output
        (fun k => if k = 0 then ⟨true, true, [104], true, true, true, 0⟩
          else ⟨true, true, [105], true, true, true, 1⟩)
        [97, 59, 59, 98] [99] []
      = (CmdResult.ret false, [HashEvent.bytes [104], HashEvent.bytes [105]]) := by
  rw [multicommand_aggregate
    (fun k => if k = 0 then ⟨true, true, [104], true, true, true, 0⟩
      else ⟨true, true, [105], true, true, true, 1⟩)
    [97, 59, 59, 98] [99] [] (by decide)]
  rfl

/-!
The sentinel-padded `Buffer` of `Buffer.hpp` and `Buffer.cpp`.  The raw
allocation is modelled as a total byte function.  `x_realloc` preserves the
common prefix of the old and new allocation sizes and leaves the remaining
bytes arbitrary; those arbitrary bytes are supplied as an explicit garbage
function, and the theorems hold for every choice of it.
-/

/-- `k_buffer_tail_size` in the vectorized (`HAVE_AVX2`) build: 31 trailing
sentinel bytes. -/
def k_buffer_tail_size : Nat := 31

/-- `k_buffer_head_size`: one leading sentinel byte. -/
def k_buffer_head_size : Nat := 1

/-- State of a `Buffer`: `m_size`, `m_capacity`, and the raw allocation,
indexed from the start of the allocation (the live region starts at index
`k_buffer_head_size`, so `buffer()[i]` is `raw (k_buffer_head_size + i)`
and `buffer()[-1]` is `raw 0`). -/
structure BufferState where
  m_size : Nat
  m_capacity : Nat
  raw : Nat → Nat

/-- `memset(f + start, val, len)` on a byte function. -/
def memset_range (f : Nat → Nat) (start len val : Nat) : Nat → Nat :=
  fun j => if start ≤ j ∧ j < start + len then val else f j

/-- Model of `Buffer::set_size`: store the new size and re-establish the
trailing sentinel region with `memset(buffer() + size, 0,
k_buffer_tail_size)`.  The C code asserts `size <= m_capacity`; validity of
an operation sequence captures that precondition. -/
def Buffer_set_size (st : BufferState) (size : Nat) : BufferState :=
  { m_size := size
    m_capacity := st.m_capacity
    raw := memset_range st.raw (k_buffer_head_size + size) k_buffer_tail_size 0 }

/-- Model of `Buffer::set_capacity`: store the capacity, `x_realloc` the
allocation to `capacity + k_buffer_head_size + k_buffer_tail_size` bytes,
then `set_size(min(m_capacity, m_size))`. -/
def Buffer_set_capacity (st : BufferState) (capacity : Nat) (garbage : Nat → Nat) :
    BufferState :=
  let oldAlloc := st.m_capacity + k_buffer_head_size + k_buffer_tail_size
  let newAlloc := capacity + k_buffer_head_size + k_buffer_tail_size
  let st2 : BufferState :=
    { m_size := st.m_size
      m_capacity := capacity
      raw := fun j => if j < min oldAlloc newAlloc then st.raw j else garbage j }
  Buffer_set_size st2 (min capacity st.m_size)

/-- Model of the `Buffer(capacity)` constructor: the fields start at zero,
`set_capacity(capacity)` allocates and zeroes the tail, and then
`memset(m_buffer.get(), '\n', k_buffer_head_size)` writes the leading
newline sentinel. -/
def Buffer_mk (capacity : Nat) (garbage : Nat → Nat) : BufferState :=
  let st := Buffer_set_capacity ⟨0, 0, garbage⟩ capacity garbage
  { st with raw := memset_range st.raw 0 k_buffer_head_size 10 }

/-- Model of `Buffer::reset`: `set_capacity(0)`. -/
def Buffer_reset (st : BufferState) (garbage : Nat → Nat) : BufferState :=
  Buffer_set_capacity st 0 garbage

/-- The `Buffer` mutations of claim C9. -/
inductive BufOp where
  | setSize (s : Nat)
  | setCapacity (c : Nat) (garbage : Nat → Nat)
  | reset (garbage : Nat → Nat)

/-- Apply one mutation. -/
def applyOp (st : BufferState) : BufOp → BufferState
  | BufOp.setSize s => Buffer_set_size st s
  | BufOp.setCapacity c g => Buffer_set_capacity st c g
  | BufOp.reset g => Buffer_reset st g

/-- Apply a sequence of mutations. -/
def applyOps (st : BufferState) : List BufOp → BufferState
  | [] => st
  | op :: ops => applyOps (applyOp st op) ops

/-- A sequence is valid when every `set_size` obeys the C code's assertion
`size <= m_capacity` at the state where it runs. -/
def validOps : BufferState → List BufOp → Prop
  | _, [] => True
  | st, op :: ops =>
      (match op with
       | BufOp.setSize s => s ≤ st.m_capacity
       | _ => True) ∧ validOps (applyOp st op) ops

/-- The sentinel invariant: the byte at live index `-1` is the newline
sentinel, the `k_buffer_tail_size` bytes from live index `size()` on are
NUL, and the size is bounded by the capacity. -/
def sentinelInv (st : BufferState) : Prop :=
  st.m_size ≤ st.m_capacity ∧ st.raw 0 = 10
    ∧ ∀ j, j < k_buffer_tail_size → st.raw (k_buffer_head_size + st.m_size + j) = 0

theorem inv_set_size (st : BufferState) (s : Nat) (hs : s ≤ st.m_capacity)
    (h10 : st.raw 0 = 10) : sentinelInv (Buffer_set_size st s) := by
  refine ⟨hs, ?_, ?_⟩
  · show memset_range st.raw (k_buffer_head_size + s) k_buffer_tail_size 0 0 = 10
    rw [memset_range, if_neg (by simp [k_buffer_head_size])]
    exact h10
  · intro j hj
    show memset_range st.raw (k_buffer_head_size + s) k_buffer_tail_size 0
        (k_buffer_head_size + s + j) = 0
    rw [memset_range, if_pos (by constructor <;> omega)]

theorem inv_set_capacity (st : BufferState) (c : Nat) (g : Nat → Nat)
    (h10 : st.raw 0 = 10) : sentinelInv (Buffer_set_capacity st c g) := by
  apply inv_set_size
  · exact Nat.min_le_left c st.m_size
  · show (if 0 < min (st.m_capacity + k_buffer_head_size + k_buffer_tail_size)
        (c + k_buffer_head_size + k_buffer_tail_size) then st.raw 0 else g 0) = 10
    rw [if_pos (by simp only [k_buffer_head_size, k_buffer_tail_size]; omega)]
    exact h10

theorem set_capacity_size (st : BufferState) (c : Nat) (g : Nat → Nat) :
    (Buffer_set_capacity st c g).m_size = min c st.m_size := rfl

theorem inv_mk (capacity : Nat) (g : Nat → Nat) :
    sentinelInv (Buffer_mk capacity g) := by
  refine ⟨Nat.le_trans (Nat.min_le_left _ _) (le_refl _), ?_, ?_⟩
  · show memset_range (Buffer_set_capacity ⟨0, 0, g⟩ capacity g).raw 0
        k_buffer_head_size 10 0 = 10
    rw [memset_range, if_pos (by simp [k_buffer_head_size])]
  · intro j hj
    show memset_range (Buffer_set_capacity ⟨0, 0, g⟩ capacity g).raw 0
        k_buffer_head_size 10 (k_buffer_head_size + min capacity 0 + j) = 0
    rw [memset_range, if_neg (by simp only [k_buffer_head_size]; omega)]
    show memset_range (fun j => if j < min (0 + k_buffer_head_size + k_buffer_tail_size)
          (capacity + k_buffer_head_size + k_buffer_tail_size) then g j else g j)
        (k_buffer_head_size + min capacity 0) k_buffer_tail_size 0
        (k_buffer_head_size + min capacity 0 + j) = 0
    rw [memset_range, if_pos (by constructor <;> omega)]

theorem inv_steps : ∀ (ops : List BufOp) (st : BufferState),
    sentinelInv st → validOps st ops → sentinelInv (applyOps st ops) := by
  intro ops
  induction ops with
  | nil => intro st h _; exact h
  | cons op rest ih =>
      intro st h hv
      apply ih (applyOp st op) _ hv.2
      cases op with
      | setSize s => exact inv_set_size st s hv.1 h.2.1
      | setCapacity c g => exact inv_set_capacity st c g h.2.1
      | reset g => exact inv_set_capacity st 0 g h.2.1

/-- C9: after any valid sequence of `Buffer` operations (construction with
any capacity, `set_size` with size at most the capacity, `set_capacity`,
`reset`), the byte before the live region is the newline sentinel and the
31 bytes starting at live index `size()` are NUL (in particular the byte at
`size()` is `'\0'`); and `set_capacity` clamps the size to the new capacity,
so shrinking the capacity below the size clamps the size. -/
theorem buffer_sentinel_invariant :
    (∀ (capacity : Nat) (g : Nat → Nat) (ops : List BufOp),
      validOps (Buffer_mk capacity g) ops →
        sentinelInv (applyOps (Buffer_mk capacity g) ops))
    ∧ (∀ (st : BufferState) (c : Nat) (g : Nat → Nat),
        (Buffer_set_capacity st c g).m_size = min c st.m_size) :=
  ⟨fun capacity g ops hv => inv_steps ops (Buffer_mk capacity g) (inv_mk capacity g) hv,
   fun st c g => set_capacity_size st c g⟩

/-- Witness for the sentinel invariant at a concrete operation sequence,
including a capacity shrink below the current size. -/
theorem buffer_sentinel_invariant_witness :
    sentinelInv (applyOps (Buffer_mk 5 (fun _ => 7))
        [BufOp.setSize 3, BufOp.setCapacity 2 (fun _ => 9), BufOp.reset (fun _ => 11)])
      ∧ (Buffer_set_capacity (Buffer_set_size (Buffer_mk 5 (fun _ => 7)) 3) 2
          (fun _ => 9)).m_size = 2 :=
  ⟨buffer_sentinel_invariant.1 5 (fun _ => 7)
      [BufOp.setSize 3, BufOp.setCapacity 2 (fun _ => 9), BufOp.reset (fun _ => 11)]
      ⟨by decide, trivial, trivial, trivial⟩,
   buffer_sentinel_invariant.2 (Buffer_set_size (Buffer_mk 5 (fun _ => 7)) 3) 2
      (fun _ => 9)⟩
